import Mathlib

/-!
Verification of the snowpack dev-server core: the data model is translated
from src/snowpack/src/types/snowpack.ts; the runtime behaviour of the
Build Cache, Plugin Pipeline, Mount Resolver and Dev Server Facade is not
shipped in this repository (only its type declarations are), so those
operations are modelled from the specification, as noted on each
definition.
-/

namespace Snowpack

/-- File contents, translated from the TypeScript union `string | Buffer`
used throughout src/snowpack/src/types/snowpack.ts (e.g. in
`SnowpackBuiltFile.code` and `LoadResult.contents`). -/
inductive FileContents where
  | buffer (bytes : List Nat)
  | text (s : String)
deriving DecidableEq

/-- Translated from `SnowpackBuiltFile` (src/snowpack/src/types/snowpack.ts,
lines 65-68): `code: string | Buffer; map?: string`. -/
structure SnowpackBuiltFile where
  code : FileContents
  map : Option String
deriving DecidableEq

/-- Translated from `SnowpackBuildMap = Record<string, SnowpackBuiltFile>`
(line 70): a finite map from output extension to built artifact, modelled
as an association list. -/
abbrev SnowpackBuildMap := List (String × SnowpackBuiltFile)

/-- Translated from the `resolve` block of `SnowpackPlugin` (lines 118-128):
when present, BOTH `input` and `output` are required fields of the block. -/
structure ResolveBlock where
  input : List String
  output : List String
deriving DecidableEq

/-- Translated from `SnowpackPlugin` (lines 114-149): the identity is the
plugin `name`; `resolve` is optional as a whole. The capability functions
(`load`, `transform`, ...) are passed separately to the pipeline model
below, keeping the record data-only. -/
structure SnowpackPlugin where
  name : String
  resolve : Option ResolveBlock
deriving DecidableEq

/-- Translated from `MountEntry` (lines 173-177). -/
structure MountEntry where
  url : String
  static : Bool
  resolve : Bool
deriving DecidableEq

/-- Translated from `LoadResult` (lines 14-19). The optional `checkStale`
procedure is modelled by the verdict it would report: `none` when the field
is absent, `some changed` when present. -/
structure LoadResult where
  contents : FileContents
  originalFileLoc : Option String
  responseFileName : String
  checkStale : Option Bool
deriving DecidableEq

/-! ## Extension Resolution Graph -/

/-- Modelled from the spec: a plugin participates in load resolution for
`ext` exactly when its `resolve.input` list contains `ext` (spec section 4.1);
a plugin without a `resolve` block does not participate at all. -/
def declaresInput (p : SnowpackPlugin) (ext : String) : Bool :=
  match p.resolve with
  | some r => r.input.contains ext
  | none => false

/-- Modelled from the spec: the loader for an extension is the first plugin
in registration order whose `resolve.input` contains it (spec section 4.1). -/
def loaderFor (ps : List SnowpackPlugin) (ext : String) : Option SnowpackPlugin :=
  ps.find? (fun p => declaresInput p ext)

/-- Modelled from the spec: the transformers applicable after a load are the
registered plugins whose `resolve.input` meets the available output
extensions, in registration order (spec section 4.1). -/
def transformersFor (ps : List SnowpackPlugin) (outputExts : List String) :
    List SnowpackPlugin :=
  ps.filter (fun p => outputExts.any (fun ext => declaresInput p ext))

/-- Modelled from the spec: the startup configuration error raised when two
plugins declare the same input extension (spec sections 4.1 and 8). -/
inductive ConfigError where
  | duplicateLoader (ext : String)
deriving DecidableEq

/-- Modelled from the spec: register one plugin's input extensions into the
loader table, failing on any extension already assigned a loader. -/
def insertInputs (pname : String) :
    List String → List (String × String) → Except ConfigError (List (String × String))
  | [], acc => .ok acc
  | ext :: rest, acc =>
    if (acc.map Prod.fst).contains ext then .error (.duplicateLoader ext)
    else insertInputs pname rest ((ext, pname) :: acc)

/-- Modelled from the spec: fold all registered plugins, in registration
order, into the extension-to-loader table (spec section 4.1). -/
def loaderMapAux :
    List SnowpackPlugin → List (String × String) → Except ConfigError (List (String × String))
  | [], acc => .ok acc
  | p :: rest, acc =>
    match p.resolve with
    | none => loaderMapAux rest acc
    | some r =>
      match insertInputs p.name r.input acc with
      | .error e => .error e
      | .ok acc2 => loaderMapAux rest acc2

/-- Modelled from the spec: the Resolution Graph's loader assignment is
computed once at startup from the full plugin list; ambiguous configuration
is reported here, at startup (spec sections 4.1 and 8). -/
def buildLoaderMap (ps : List SnowpackPlugin) :
    Except ConfigError (List (String × String)) :=
  loaderMapAux ps []

/-- Number of loader assignments a table holds for one input extension. -/
def loaderCount (m : List (String × String)) (ext : String) : Nat :=
  (m.filter (fun e => e.1 == ext)).length

/-! ## Plugin Pipeline: the load stage -/

/-- Translated from the return type of `SnowpackPlugin.load` (line 130):
`PluginLoadResult | string | null | undefined | void`; `empty` covers
null/undefined/void. -/
inductive LoaderOutput where
  | empty
  | str (code : String)
  | buildMap (m : SnowpackBuildMap)
deriving DecidableEq

/-- Modelled from the spec: step 2 of the Plugin Pipeline (spec section 4.3).
A `null/undefined` loader result passes the raw contents through under the
original extension; a plain string is wrapped as a one-key build map under
the base extension; a full build map is used as-is. -/
def interpretLoaderOutput (baseExt : String) (raw : FileContents) :
    LoaderOutput → SnowpackBuildMap
  | .empty => [(baseExt, ⟨raw, none⟩)]
  | .str code => [(baseExt, ⟨.text code, none⟩)]
  | .buildMap m => m

/-- Modelled from the spec: the load stage of the Plugin Pipeline (spec
sections 4.1 and 4.3). `loadImpl` gives each plugin's load result by name;
when no plugin declares the extension as input the loader is the identity
and the raw contents pass through unmodified. -/
def pipelineLoad (ps : List SnowpackPlugin) (loadImpl : String → LoaderOutput)
    (baseExt : String) (raw : FileContents) : SnowpackBuildMap :=
  match loaderFor ps baseExt with
  | none => [(baseExt, ⟨raw, none⟩)]
  | some p => interpretLoaderOutput baseExt raw (loadImpl p.name)

/-! ## Mount Resolver -/

/-- URL-prefix test: `pre` is a prefix of `s`, compared character by
character. -/
def urlPrefixOf (pre s : String) : Bool :=
  pre.toList.isPrefixOf s.toList

/-- Modelled from the spec: fold step keeping the matching mount entry with
the longest URL prefix seen so far (spec section 4.2). -/
def betterMount (reqPath : String) (best : Option MountEntry) (m : MountEntry) :
    Option MountEntry :=
  if urlPrefixOf m.url reqPath then
    match best with
    | none => some m
    | some b => if b.url.length < m.url.length then some m else some b
  else best

/-- Modelled from the spec: the Mount Resolver matches the longest mount URL
prefix that is itself a prefix of the request path (spec section 4.2). -/
def matchMount (mounts : List MountEntry) (reqPath : String) : Option MountEntry :=
  mounts.foldl (betterMount reqPath) none

/-- Outcome of mount resolution: a matched entry, or NotFound. -/
inductive ResolveOutcome where
  | ok (m : MountEntry)
  | notFound
deriving DecidableEq

/-- Modelled from the spec: no matching mount prefix means NotFound
(spec section 4.2). -/
def resolveMount (mounts : List MountEntry) (reqPath : String) : ResolveOutcome :=
  match matchMount mounts reqPath with
  | some m => .ok m
  | none => .notFound

/-- Modelled from the spec: resolution errors map to HTTP 404
(spec section 7). -/
def statusOf : ResolveOutcome → Nat
  | .ok _ => 200
  | .notFound => 404

/-! ## Dev Server Facade: contents encoding -/

/-- Translated from the three `loadUrl` overloads (lines 23-50): the
`encoding` option is either omitted, a named `BufferEncoding`, or `null`. -/
inductive EncodingOpt where
  | omitted
  | named (enc : String)
  | null
deriving DecidableEq

/-- Byte view of file contents (text is encoded to its character codes). -/
def toBytes : FileContents → List Nat
  | .buffer bs => bs
  | .text s => s.toList.map Char.toNat

/-- Decoded-text view of file contents. -/
def decodeText : FileContents → String
  | .text s => s
  | .buffer bs => String.mk (bs.map Char.ofNat)

/-- Modelled from the spec: `encoding: null` returns a binary buffer, a
named encoding returns decoded text, omitted returns whichever form the
artifact natively holds (spec section 6). -/
def encodeContents : EncodingOpt → FileContents → FileContents
  | .null, c => .buffer (toBytes c)
  | .named _, c => .text (decodeText c)
  | .omitted, c => c

/-- True when the contents are a binary buffer. -/
def isBuffer : FileContents → Bool
  | .buffer _ => true
  | .text _ => false

/-- True when the contents are decoded text. -/
def isText : FileContents → Bool
  | .text _ => true
  | .buffer _ => false

/-- Modelled from the spec: `loadUrl` constructs the returned `LoadResult`
fresh per request, with contents encoded per the caller's `encoding`
option (spec sections 4.5 and 6). -/
def finalizeLoadResult (enc : EncodingOpt) (artifact : FileContents)
    (loc : Option String) (respName : String) (stale : Option Bool) : LoadResult :=
  ⟨encodeContents enc artifact, loc, respName, stale⟩

/-! ## Build Cache -/

abbrev Path := String

/-- A BuildMap object held by the cache; `id` is the allocation identity of
the object, so equal `id` models reference identity (the same object, not
merely an equal one). -/
structure BuildMapObj where
  id : Nat
  map : SnowpackBuildMap
deriving DecidableEq

/-- Modelled from the spec: a build-pipeline error (`LoadError` or
`TransformError`, spec section 7). -/
inductive BuildError where
  | loadError (msg : String)
  | transformError (msg : String)
deriving DecidableEq

/-- Modelled from the spec: the Build Cache state. `entries` memoizes build
maps by source path; `inFlight` records the promise shared by all callers
of an in-flight build; `promises` records each resolved promise's result;
`buildCalls` logs every invocation of the plugin pipeline's build function
(newest first); `nextPromise`/`nextAlloc` are fresh-id counters
(spec sections 4.4 and 5). -/
structure BuildCache where
  entries : List (Path × BuildMapObj)
  inFlight : List (Path × Nat)
  promises : List (Nat × BuildMapObj)
  buildCalls : List Path
  nextPromise : Nat
  nextAlloc : Nat
deriving DecidableEq

/-- Look up the cached entry for a path. -/
def lookupEntry (st : BuildCache) (path : Path) : Option BuildMapObj :=
  (st.entries.find? (fun e => e.1 == path)).map Prod.snd

/-- Look up the in-flight promise for a path. -/
def lookupInFlight (st : BuildCache) (path : Path) : Option Nat :=
  (st.inFlight.find? (fun e => e.1 == path)).map Prod.snd

/-- Await a promise: its result once resolved. -/
def awaitPromise (p : Nat) (st : BuildCache) : Option BuildMapObj :=
  (st.promises.find? (fun e => e.1 == p)).map Prod.snd

/-- What one step of `get` observes for its caller: a fresh cache hit, a
join onto an already in-flight build's promise, or the start of a new
build (which is the only case that invokes the pipeline). -/
inductive GetOutcome where
  | hit (bm : BuildMapObj)
  | joined (p : Nat)
  | started (p : Nat)
deriving DecidableEq

/-- Modelled from the spec: the suspension-free first phase of
`get(path, buildFn)` under the cooperative event loop (spec sections 4.4
and 5). A fresh entry is returned as a hit without invoking the pipeline;
an in-flight build is joined, sharing its promise; otherwise a new build
starts: an in-flight promise is registered and the pipeline invocation is
logged. -/
def getStart (path : Path) (st : BuildCache) : GetOutcome × BuildCache :=
  match lookupEntry st path with
  | some bm => (.hit bm, st)
  | none =>
    match lookupInFlight st path with
    | some p => (.joined p, st)
    | none =>
      (.started st.nextPromise,
        { st with
            inFlight := (path, st.nextPromise) :: st.inFlight,
            buildCalls := path :: st.buildCalls,
            nextPromise := st.nextPromise + 1 })

/-- Modelled from the spec: completion of an in-flight build. A fresh
BuildMap object is allocated, stored as the cache entry, and used to
resolve the shared in-flight promise, so every joined caller observes the
same object (spec sections 4.4 and 5). -/
def buildComplete (path : Path) (payload : SnowpackBuildMap) (st : BuildCache) :
    Option (BuildCache × BuildMapObj) :=
  match lookupInFlight st path with
  | none => none
  | some p =>
    let bm : BuildMapObj := ⟨st.nextAlloc, payload⟩
    some
      ({ st with
          entries := (path, bm) :: st.entries,
          inFlight := st.inFlight.filter (fun e => !(e.1 == path)),
          promises := (p, bm) :: st.promises,
          nextAlloc := st.nextAlloc + 1 }, bm)

/-- Modelled from the spec: a failed build is simply not cached; the
in-flight marker is dropped so the identical next request re-attempts the
full pipeline (spec section 7). -/
def buildFail (path : Path) (st : BuildCache) : BuildCache :=
  { st with inFlight := st.inFlight.filter (fun e => !(e.1 == path)) }

/-- Error surfaced by a synchronous `get`. -/
inductive GetError where
  | build (e : BuildError)
  | pending
deriving DecidableEq

/-- Modelled from the spec: `get(path, buildFn)` run to completion with no
interleaved request (spec section 4.4): a fresh entry is returned without
invoking `buildFn`; otherwise `buildFn` runs, a success is stored and
returned, and a failure is surfaced and not stored. -/
def get (path : Path) (buildFn : Unit → Except BuildError SnowpackBuildMap)
    (st : BuildCache) : Except GetError BuildMapObj × BuildCache :=
  match getStart path st with
  | (.hit bm, st1) => (.ok bm, st1)
  | (.joined p, st1) =>
    match awaitPromise p st1 with
    | some bm => (.ok bm, st1)
    | none => (.error .pending, st1)
  | (.started _, st1) =>
    match buildFn () with
    | .ok payload =>
      match buildComplete path payload st1 with
      | some (st2, bm) => (.ok bm, st2)
      | none => (.error .pending, st1)
    | .error e => (.error (.build e), buildFail path st1)

/-- Modelled from the spec: `invalidate(path)` drops the cache entry; the
next `get` rebuilds from scratch (spec section 4.4). -/
def invalidate (path : Path) (st : BuildCache) : BuildCache :=
  { st with entries := st.entries.filter (fun e => !(e.1 == path)) }

/-- Modelled from the spec: the plugin `onChange`/`markChanged` hook is
invoked by the file-watch collaborator and triggers invalidation of the
changed path (spec section 4.4; hook type at
src/snowpack/src/types/snowpack.ts lines 145-148). -/
def onChange (filePath : Path) (st : BuildCache) : BuildCache :=
  invalidate filePath st

/-! ## Staleness check -/

/-- Modelled from the spec: a cache entry wraps a BuildMap with an optional
staleness-check procedure, modelled by the verdict it would report
(`some true` = the file has changed) (spec section 3, CacheEntry). -/
structure CacheEntry where
  buildMap : BuildMapObj
  checkStale : Option Bool
deriving DecidableEq

/-- What a cached `loadUrl` returns, together with whether the staleness
check was invoked and whether the entry was rebuilt. -/
structure StaleOutcome where
  result : BuildMapObj
  invokedCheckStale : Bool
  rebuilt : Bool
deriving DecidableEq

/-- Modelled from the spec: `loadUrl` against a cached entry. With
`allowStale: true` the cached artifact is returned immediately and
`checkStale` is never invoked; with `allowStale: false` a present
`checkStale` is awaited first, and a "changed" verdict treats the entry as
a miss and rebuilds (spec sections 4.4 and 8). `rebuild` is the result the
pipeline produces on a rebuild. -/
def loadCachedEntry (entry : CacheEntry) (allowStale : Bool) (rebuild : BuildMapObj) :
    StaleOutcome :=
  if allowStale then ⟨entry.buildMap, false, false⟩
  else
    match entry.checkStale with
    | none => ⟨entry.buildMap, false, false⟩
    | some changed =>
      if changed then ⟨rebuild, true, true⟩ else ⟨entry.buildMap, true, false⟩

/-! ## Concrete demonstration values (used by witnesses) -/

/-- A loader plugin for single-file components, emitting JS and CSS. -/
def sveltePlugin : SnowpackPlugin := ⟨"svelte-plugin", some ⟨[".svelte"], [".js", ".css"]⟩⟩

/-- A plugin with no `resolve` block (side-effect hooks only). -/
def runOnlyPlugin : SnowpackPlugin := ⟨"side-effect-only", none⟩

/-- A concrete raw source content. -/
def demoRaw : FileContents := .text "raw source"

/-- A load implementation returning a plain string. -/
def demoLoadStr : String → LoaderOutput := fun _ => .str "compiled"

/-- A concrete cached BuildMap object. -/
def demoBM : BuildMapObj := ⟨0, [(".js", ⟨.text "code", none⟩)]⟩

/-- A concrete rebuilt BuildMap object. -/
def demoBM2 : BuildMapObj := ⟨1, [(".js", ⟨.text "fresh code", none⟩)]⟩

/-- A cache entry whose staleness check reports "changed". -/
def demoEntry : CacheEntry := ⟨demoBM, some true⟩

/-- A build pipeline producing this payload. -/
def demoPayload : SnowpackBuildMap := [(".js", ⟨.text "fresh code", none⟩)]

/-- A build function that succeeds with `demoPayload`. -/
def demoBuildFn : Unit → Except BuildError SnowpackBuildMap := fun _ => .ok demoPayload

/-- A build function that always fails. -/
def demoFailFn : Unit → Except BuildError SnowpackBuildMap :=
  fun _ => .error (.loadError "compiler exploded")

/-- The BuildMap object the first build on the empty cache allocates. -/
def demoFreshBM : BuildMapObj := ⟨0, demoPayload⟩

/-- The empty Build Cache. -/
def emptyCache : BuildCache := ⟨[], [], [], [], 0, 0⟩

/-- The cache state after one successful build of "a.ts" on the empty cache. -/
def demoBuiltState : BuildCache :=
  ⟨[("a.ts", demoFreshBM)], [], [(0, demoFreshBM)], ["a.ts"], 1, 1⟩

/-! ## Helper lemmas -/

/-- After filtering out every pair carrying a given key, looking that key up
finds nothing. -/
theorem find_key_filter_eq_none {α : Type _} (l : List (Path × α)) (path : Path) :
    (l.filter (fun e => !(e.1 == path))).find? (fun e => e.1 == path) = none := by
  induction l with
  | nil => rfl
  | cons e rest ih =>
    by_cases h : e.1 = path <;> simp [List.filter_cons, h, List.find?, ih]

/-- A `get` on a fresh cache entry is a hit: the entry is returned and the
state is untouched. -/
theorem get_hit (path : Path) (buildFn : Unit → Except BuildError SnowpackBuildMap)
    (st : BuildCache) (bm : BuildMapObj) (hE : lookupEntry st path = some bm) :
    get path buildFn st = (.ok bm, st) := by
  simp [get, getStart, hE]

/-- A `get` that joins a resolved in-flight promise returns its result and
leaves the state untouched. -/
theorem get_joined_resolved (path : Path)
    (buildFn : Unit → Except BuildError SnowpackBuildMap) (st : BuildCache)
    (p : Nat) (bm : BuildMapObj) (hE : lookupEntry st path = none)
    (hF : lookupInFlight st path = some p) (hA : awaitPromise p st = some bm) :
    get path buildFn st = (.ok bm, st) := by
  simp [get, getStart, hE, hF, hA]

/-- A `get` that joins an unresolved in-flight promise is pending. -/
theorem get_joined_pending (path : Path)
    (buildFn : Unit → Except BuildError SnowpackBuildMap) (st : BuildCache)
    (p : Nat) (hE : lookupEntry st path = none)
    (hF : lookupInFlight st path = some p) (hA : awaitPromise p st = none) :
    get path buildFn st = (.error .pending, st) := by
  simp [get, getStart, hE, hF, hA]

/-- A `get` missing the cache with a succeeding build function stores and
returns a freshly allocated BuildMap object, logging one pipeline call. -/
theorem get_miss_ok (path : Path)
    (buildFn : Unit → Except BuildError SnowpackBuildMap) (st : BuildCache)
    (payload : SnowpackBuildMap) (hE : lookupEntry st path = none)
    (hF : lookupInFlight st path = none) (hB : buildFn () = .ok payload) :
    get path buildFn st =
      (.ok ⟨st.nextAlloc, payload⟩,
       { st with
           entries := (path, ⟨st.nextAlloc, payload⟩) :: st.entries,
           inFlight := st.inFlight.filter (fun x => !(x.1 == path)),
           promises := (st.nextPromise, ⟨st.nextAlloc, payload⟩) :: st.promises,
           buildCalls := path :: st.buildCalls,
           nextPromise := st.nextPromise + 1,
           nextAlloc := st.nextAlloc + 1 }) := by
  have hF' : Option.map Prod.snd (List.find? (fun e => e.1 == path) st.inFlight) = none := hF
  simp [get, getStart, hE, hF', hB, buildComplete, lookupInFlight, List.find?,
    List.filter_cons]

/-- A `get` missing the cache with a failing build function surfaces the
error, stores nothing, and logs the one failed pipeline call. -/
theorem get_miss_error (path : Path)
    (buildFn : Unit → Except BuildError SnowpackBuildMap) (st : BuildCache)
    (e : BuildError) (hE : lookupEntry st path = none)
    (hF : lookupInFlight st path = none) (hB : buildFn () = .error e) :
    get path buildFn st =
      (.error (.build e),
       { st with
           inFlight := st.inFlight.filter (fun x => !(x.1 == path)),
           buildCalls := path :: st.buildCalls,
           nextPromise := st.nextPromise + 1 }) := by
  simp [get, getStart, hE, hF, hB, buildFail, List.filter_cons]

/-! ## Theorems -/

/-- C3: calling the Build Cache's `get` twice with no invalidation between
the calls returns, on the second call, the reference-identical BuildMap
object (the very same object, same allocation id) returned by the first
call, leaves the state untouched, and does not invoke the build function
the second time (the pipeline-invocation log does not grow). -/
theorem cache_get_idempotent (path : Path)
    (buildFn : Unit → Except BuildError SnowpackBuildMap) (st : BuildCache)
    (bm : BuildMapObj) (st1 : BuildCache)
    (h : get path buildFn st = (.ok bm, st1)) :
    get path buildFn st1 = (.ok bm, st1) ∧
    ((get path buildFn st1).2).buildCalls = st1.buildCalls := by
  have key : get path buildFn st1 = (.ok bm, st1) := by
    rcases hE : lookupEntry st path with _ | bm0
    · rcases hF : lookupInFlight st path with _ | p
      · rcases hB : buildFn () with e | payload
        · rw [get_miss_error path buildFn st e hE hF hB] at h
          simp at h
        · rw [get_miss_ok path buildFn st payload hE hF hB] at h
          simp only [Prod.mk.injEq, Except.ok.injEq] at h
          obtain ⟨hbm, hst⟩ := h
          subst hst
          exact get_hit path buildFn _ bm (by simp [lookupEntry, List.find?, hbm])
      · rcases hA : awaitPromise p st with _ | bm0
        · rw [get_joined_pending path buildFn st p hE hF hA] at h
          simp at h
        · rw [get_joined_resolved path buildFn st p bm0 hE hF hA] at h
          simp only [Prod.mk.injEq, Except.ok.injEq] at h
          obtain ⟨hbm, hst⟩ := h
          subst hst; subst hbm
          exact get_joined_resolved path buildFn _ p bm0 hE hF hA
    · rw [get_hit path buildFn st bm0 hE] at h
      simp only [Prod.mk.injEq, Except.ok.injEq] at h
      obtain ⟨hbm, hst⟩ := h
      subst hst; subst hbm
      exact get_hit path buildFn _ bm0 hE
  exact ⟨key, by rw [key]⟩

/-- Witness for C3: after one build of "a.ts" on the empty cache, a second
`get` returns the very same BuildMap object without growing the
pipeline-invocation log. -/
theorem cache_get_idempotent_witness :
    get "a.ts" demoBuildFn demoBuiltState = (.ok demoFreshBM, demoBuiltState) ∧
    ((get "a.ts" demoBuildFn demoBuiltState).2).buildCalls = demoBuiltState.buildCalls :=
  cache_get_idempotent "a.ts" demoBuildFn emptyCache demoFreshBM demoBuiltState rfl

/-- C6: after `invalidate(P)` is triggered through the `onChange` hook, the
entry for P is gone and the next `get(P)` invokes the pipeline's build
function again (the invocation log grows by P) rather than returning the
previously cached result. -/
theorem invalidate_then_get_rebuilds (path : Path)
    (buildFn : Unit → Except BuildError SnowpackBuildMap) (st : BuildCache)
    (hF : lookupInFlight st path = none) :
    lookupEntry (onChange path st) path = none ∧
    ((get path buildFn (onChange path st)).2).buildCalls = path :: st.buildCalls := by
  have hE : lookupEntry (onChange path st) path = none := by
    show ((st.entries.filter (fun x => !(x.1 == path))).find?
      (fun x => x.1 == path)).map Prod.snd = none
    rw [find_key_filter_eq_none]; rfl
  have hF2 : lookupInFlight (onChange path st) path = none := hF
  refine ⟨hE, ?_⟩
  rcases hB : buildFn () with e | payload
  · rw [get_miss_error path buildFn (onChange path st) e hE hF2 hB]; rfl
  · rw [get_miss_ok path buildFn (onChange path st) payload hE hF2 hB]; rfl

/-- Witness for C6: invalidating "a.ts" through `onChange` on the built
cache makes the next `get` run the pipeline again. -/
theorem invalidate_then_get_rebuilds_witness :
    lookupEntry (onChange "a.ts" demoBuiltState) "a.ts" = none ∧
    ((get "a.ts" demoBuildFn (onChange "a.ts" demoBuiltState)).2).buildCalls =
      "a.ts" :: demoBuiltState.buildCalls :=
  invalidate_then_get_rebuilds "a.ts" demoBuildFn demoBuiltState (by decide)

/-- C7: when the build function fails, `get` surfaces the error as a build
failure, stores nothing in the cache, leaves nothing in flight, makes
exactly one pipeline attempt (no automatic retry), and the identical next
request re-attempts the full pipeline. -/
theorem failed_build_not_cached (path : Path)
    (buildFn : Unit → Except BuildError SnowpackBuildMap) (st : BuildCache)
    (e : BuildError) (hE : lookupEntry st path = none)
    (hF : lookupInFlight st path = none) (hB : buildFn () = .error e) :
    (get path buildFn st).1 = .error (.build e) ∧
    lookupEntry (get path buildFn st).2 path = none ∧
    lookupInFlight (get path buildFn st).2 path = none ∧
    ((get path buildFn st).2).buildCalls = path :: st.buildCalls ∧
    ((get path buildFn ((get path buildFn st).2)).2).buildCalls =
      path :: ((get path buildFn st).2).buildCalls := by
  have hg := get_miss_error path buildFn st e hE hF hB
  have h2 : lookupEntry (get path buildFn st).2 path = none := by
    rw [hg]; exact hE
  have h3 : lookupInFlight (get path buildFn st).2 path = none := by
    rw [hg]
    show ((st.inFlight.filter (fun x => !(x.1 == path))).find?
      (fun x => x.1 == path)).map Prod.snd = none
    rw [find_key_filter_eq_none]; rfl
  refine ⟨by rw [hg], h2, h3, by rw [hg], ?_⟩
  rw [get_miss_error path buildFn ((get path buildFn st).2) e h2 h3 hB]

/-- Witness for C7: a failing build of "b.ts" on the empty cache surfaces
the error, caches nothing, and the identical next request re-attempts. -/
theorem failed_build_not_cached_witness :
    (get "b.ts" demoFailFn emptyCache).1 = .error (.build (.loadError "compiler exploded")) ∧
    lookupEntry (get "b.ts" demoFailFn emptyCache).2 "b.ts" = none ∧
    lookupInFlight (get "b.ts" demoFailFn emptyCache).2 "b.ts" = none ∧
    ((get "b.ts" demoFailFn emptyCache).2).buildCalls = "b.ts" :: emptyCache.buildCalls ∧
    ((get "b.ts" demoFailFn ((get "b.ts" demoFailFn emptyCache).2)).2).buildCalls =
      "b.ts" :: ((get "b.ts" demoFailFn emptyCache).2).buildCalls :=
  failed_build_not_cached "b.ts" demoFailFn emptyCache (.loadError "compiler exploded")
    (by decide) (by decide) rfl

/-- C1: two builds of the same uncached path issued while one build is in
flight execute the plugin pipeline exactly once and both callers observe
the same resulting BuildMap object: the first caller starts the build
(registering the shared in-flight promise), the second caller's `getStart`
joins that very promise without growing the pipeline-invocation log, and
on completion the promise resolves to the one freshly allocated BuildMap
object that is also the stored cache entry. -/
theorem single_flight_shared_result (path : Path) (payload : SnowpackBuildMap)
    (st : BuildCache) (hE : lookupEntry st path = none)
    (hF : lookupInFlight st path = none) :
    ∃ st1 bm st3,
      getStart path st = (.started st.nextPromise, st1) ∧
      getStart path st1 = (.joined st.nextPromise, st1) ∧
      st1.buildCalls = path :: st.buildCalls ∧
      buildComplete path payload st1 = some (st3, bm) ∧
      awaitPromise st.nextPromise st3 = some bm ∧
      lookupEntry st3 path = some bm := by
  have hE' : Option.map Prod.snd (List.find? (fun x => x.1 == path) st.entries) = none := hE
  refine ⟨{ st with
              inFlight := (path, st.nextPromise) :: st.inFlight,
              buildCalls := path :: st.buildCalls,
              nextPromise := st.nextPromise + 1 },
          ⟨st.nextAlloc, payload⟩,
          { st with
              entries := (path, ⟨st.nextAlloc, payload⟩) :: st.entries,
              inFlight :=
                ((path, st.nextPromise) :: st.inFlight).filter (fun x => !(x.1 == path)),
              promises := (st.nextPromise, ⟨st.nextAlloc, payload⟩) :: st.promises,
              buildCalls := path :: st.buildCalls,
              nextPromise := st.nextPromise + 1,
              nextAlloc := st.nextAlloc + 1 },
          ?_, ?_, rfl, ?_, ?_, ?_⟩
  · simp [getStart, hE, hF]
  · simp [getStart, lookupEntry, lookupInFlight, List.find?, hE']
  · simp [buildComplete, lookupInFlight, List.find?]
  · simp [awaitPromise, List.find?]
  · simp [lookupEntry, List.find?]

/-- Witness for C1: the two-caller interleaving on the empty cache for
"a.ts" runs the pipeline once and shares one BuildMap object. -/
theorem single_flight_shared_result_witness :
    ∃ st1 bm st3,
      getStart "a.ts" emptyCache = (.started emptyCache.nextPromise, st1) ∧
      getStart "a.ts" st1 = (.joined emptyCache.nextPromise, st1) ∧
      st1.buildCalls = "a.ts" :: emptyCache.buildCalls ∧
      buildComplete "a.ts" demoPayload st1 = some (st3, bm) ∧
      awaitPromise emptyCache.nextPromise st3 = some bm ∧
      lookupEntry st3 "a.ts" = some bm :=
  single_flight_shared_result "a.ts" demoPayload emptyCache (by decide) (by decide)

/-- C9: for every successful `loadUrl`, `encoding: null` yields contents
that are a binary buffer, a named encoding yields decoded text, and an
omitted encoding yields the artifact's native form unchanged. -/
theorem loadUrl_encoding_contract (artifact : FileContents) (loc : Option String)
    (respName : String) (stale : Option Bool) (enc : String) :
    isBuffer (finalizeLoadResult .null artifact loc respName stale).contents = true ∧
    isText (finalizeLoadResult (.named enc) artifact loc respName stale).contents = true ∧
    (finalizeLoadResult .omitted artifact loc respName stale).contents = artifact :=
  ⟨rfl, rfl, rfl⟩

/-- C2: against a cached entry carrying a `checkStale` procedure,
`loadUrl` with `allowStale: false` invokes the check, and a "changed"
verdict rebuilds the entry; with `allowStale: true` the check is never
invoked and the cached artifact is returned immediately. -/
theorem loadUrl_staleness_contract (entry : CacheEntry) (rebuild : BuildMapObj) :
    (∀ changed, entry.checkStale = some changed →
      (loadCachedEntry entry false rebuild).invokedCheckStale = true ∧
      (changed = true →
        (loadCachedEntry entry false rebuild).rebuilt = true ∧
        (loadCachedEntry entry false rebuild).result = rebuild)) ∧
    loadCachedEntry entry true rebuild = ⟨entry.buildMap, false, false⟩ := by
  constructor
  · intro changed h
    cases changed <;> simp [loadCachedEntry, h]
  · rfl

/-- Witness for C2 at a concrete entry whose check reports "changed". -/
theorem loadUrl_staleness_contract_witness :
    ((loadCachedEntry demoEntry false demoBM2).invokedCheckStale = true ∧
      (true = true →
        (loadCachedEntry demoEntry false demoBM2).rebuilt = true ∧
        (loadCachedEntry demoEntry false demoBM2).result = demoBM2)) ∧
    loadCachedEntry demoEntry true demoBM2 = ⟨demoEntry.buildMap, false, false⟩ :=
  ⟨(loadUrl_staleness_contract demoEntry demoBM2).1 true rfl,
   (loadUrl_staleness_contract demoEntry demoBM2).2⟩

/-- C5: the pipeline's handling of the loader's result: with no loader for
the extension the raw contents pass through under the original extension;
a null/undefined result also passes the raw contents through; a plain
string is wrapped as a one-key BuildMap under the base extension; a full
BuildMap is used as-is. -/
theorem pipeline_loader_result_contract (ps : List SnowpackPlugin)
    (loadImpl : String → LoaderOutput) (baseExt : String) (raw : FileContents) :
    (loaderFor ps baseExt = none →
      pipelineLoad ps loadImpl baseExt raw = [(baseExt, ⟨raw, none⟩)]) ∧
    (∀ p, loaderFor ps baseExt = some p →
      (loadImpl p.name = .empty →
        pipelineLoad ps loadImpl baseExt raw = [(baseExt, ⟨raw, none⟩)]) ∧
      (∀ code, loadImpl p.name = .str code →
        pipelineLoad ps loadImpl baseExt raw = [(baseExt, ⟨.text code, none⟩)]) ∧
      (∀ m, loadImpl p.name = .buildMap m →
        pipelineLoad ps loadImpl baseExt raw = m)) := by
  constructor
  · intro h; simp [pipelineLoad, h]
  · intro p hp
    refine ⟨fun h => ?_, fun code h => ?_, fun m h => ?_⟩ <;>
      simp [pipelineLoad, hp, h, interpretLoaderOutput]

/-- Witness for C5: the identity pass-through with no registered loader,
and the string-wrapping case with a concrete loader plugin. -/
theorem pipeline_loader_result_contract_witness :
    pipelineLoad [] demoLoadStr ".js" demoRaw = [(".js", ⟨demoRaw, none⟩)] ∧
    pipelineLoad [sveltePlugin] demoLoadStr ".svelte" demoRaw =
      [(".svelte", ⟨.text "compiled", none⟩)] :=
  ⟨(pipeline_loader_result_contract [] demoLoadStr ".js" demoRaw).1 rfl,
   ((pipeline_loader_result_contract [sveltePlugin] demoLoadStr ".svelte" demoRaw).2
      sveltePlugin (by decide)).2.1 "compiled" rfl⟩

/-- C10: the `resolve` block is all-or-nothing (declaring it provides both
the input list and the output list), and a plugin with no `resolve` block
never participates in load or transform extension resolution. -/
theorem resolve_block_participation (p : SnowpackPlugin) :
    (∀ r, p.resolve = some r → p.resolve = some ⟨r.input, r.output⟩) ∧
    (p.resolve = none →
      ∀ ps exts ext, loaderFor ps ext ≠ some p ∧ p ∉ transformersFor ps exts) := by
  constructor
  · intro r h; rw [h]
  · intro hnone ps exts ext
    constructor
    · intro h
      have hpred := List.find?_some h
      simp [declaresInput, hnone] at hpred
    · intro h
      have hpred := List.of_mem_filter h
      simp [declaresInput, hnone] at hpred

/-- Witness for C10 at a concrete resolving plugin and a concrete
side-effect-only plugin. -/
theorem resolve_block_participation_witness :
    sveltePlugin.resolve = some ⟨[".svelte"], [".js", ".css"]⟩ ∧
    (loaderFor [runOnlyPlugin] ".js" ≠ some runOnlyPlugin ∧
      runOnlyPlugin ∉ transformersFor [runOnlyPlugin] [".js"]) :=
  ⟨(resolve_block_participation sveltePlugin).1 ⟨[".svelte"], [".js", ".css"]⟩ rfl,
   (resolve_block_participation runOnlyPlugin).2 rfl [runOnlyPlugin] [".js"] ".js"⟩

/-! ## Mount Resolver lemmas and C8 -/

/-- A mount with URL "/src". -/
def demoMountSrc : MountEntry := ⟨"/src", false, true⟩

/-- A mount with URL "/src/deep", nested under "/src". -/
def demoMountDeep : MountEntry := ⟨"/src/deep", false, true⟩

/-- A static mount with URL "/public". -/
def demoMountPublic : MountEntry := ⟨"/public", true, false⟩

/-- A concrete mount table. -/
def demoMounts : List MountEntry := [demoMountSrc, demoMountDeep, demoMountPublic]

/-- The fold step only ever holds an entry whose URL is a prefix of the
request path. -/
theorem betterMount_good (reqPath : String) (best : Option MountEntry) (m : MountEntry)
    (hb : ∀ b, best = some b → urlPrefixOf b.url reqPath = true) :
    ∀ b, betterMount reqPath best m = some b → urlPrefixOf b.url reqPath = true := by
  intro b h
  by_cases hm : urlPrefixOf m.url reqPath = true
  · rcases hbest : best with _ | b0
    · simp [betterMount, hm, hbest] at h
      subst h; exact hm
    · by_cases hlen : b0.url.length < m.url.length
      · simp [betterMount, hm, hbest, hlen] at h
        subst h; exact hm
      · simp [betterMount, hm, hbest, hlen] at h
        subst h; exact hb b0 hbest
  · simp [betterMount, hm] at h
    exact hb b h

/-- The fold keeps the prefix-matching invariant through a whole list. -/
theorem matchMountAux_good (reqPath : String) :
    ∀ (ms : List MountEntry) (best : Option MountEntry),
    (∀ b, best = some b → urlPrefixOf b.url reqPath = true) →
    ∀ b, ms.foldl (betterMount reqPath) best = some b → urlPrefixOf b.url reqPath = true := by
  intro ms
  induction ms with
  | nil => intro best hb b h; exact hb b h
  | cons x ms ih =>
    intro best hb b h
    rw [List.foldl_cons] at h
    exact ih (betterMount reqPath best x) (betterMount_good reqPath best x hb) b h

/-- Once the fold holds an entry, it keeps holding one, and the held URL
length never shrinks. -/
theorem matchMountAux_some_mono (reqPath : String) :
    ∀ (ms : List MountEntry) (b : MountEntry),
    ∃ m, ms.foldl (betterMount reqPath) (some b) = some m ∧
      b.url.length ≤ m.url.length := by
  intro ms
  induction ms with
  | nil => intro b; exact ⟨b, rfl, le_refl _⟩
  | cons x ms ih =>
    intro b
    by_cases hm : urlPrefixOf x.url reqPath = true
    · by_cases hlen : b.url.length < x.url.length
      · obtain ⟨m, hfold, hle⟩ := ih x
        exact ⟨m, by rw [List.foldl_cons]; simpa [betterMount, hm, hlen] using hfold,
          le_trans (le_of_lt hlen) hle⟩
      · obtain ⟨m, hfold, hle⟩ := ih b
        exact ⟨m, by rw [List.foldl_cons]; simpa [betterMount, hm, hlen] using hfold, hle⟩
    · obtain ⟨m, hfold, hle⟩ := ih b
      exact ⟨m, by rw [List.foldl_cons]; simpa [betterMount, hm] using hfold, hle⟩

/-- Any prefix-matching entry of the list bounds the length of the entry
the fold ends with. -/
theorem matchMountAux_max (reqPath : String) :
    ∀ (ms : List MountEntry) (best : Option MountEntry) (m2 : MountEntry),
    m2 ∈ ms → urlPrefixOf m2.url reqPath = true →
    ∃ m, ms.foldl (betterMount reqPath) best = some m ∧
      m2.url.length ≤ m.url.length := by
  intro ms
  induction ms with
  | nil => intro best m2 h; cases h
  | cons x ms ih =>
    intro best m2 hmem hpre
    rcases List.mem_cons.mp hmem with rfl | hmem2
    · have hstep : ∃ c, betterMount reqPath best m2 = some c ∧
          m2.url.length ≤ c.url.length := by
        rcases best with _ | b0
        · exact ⟨m2, by simp [betterMount, hpre], le_refl _⟩
        · by_cases hlen : b0.url.length < m2.url.length
          · exact ⟨m2, by simp [betterMount, hpre, hlen], le_refl _⟩
          · exact ⟨b0, by simp [betterMount, hpre, hlen], le_of_not_lt hlen⟩
      obtain ⟨c, hc, hlec⟩ := hstep
      obtain ⟨m, hfold, hle⟩ := matchMountAux_some_mono reqPath ms c
      refine ⟨m, ?_, le_trans hlec hle⟩
      rw [List.foldl_cons, hc]
      exact hfold
    · rw [List.foldl_cons]
      exact ih (betterMount reqPath best x) m2 hmem2 hpre

/-- When no entry's URL is a prefix of the request path, the fold stays
empty. -/
theorem matchMountAux_none (reqPath : String) :
    ∀ (ms : List MountEntry),
    (∀ m2, m2 ∈ ms → urlPrefixOf m2.url reqPath = false) →
    ms.foldl (betterMount reqPath) none = none := by
  intro ms
  induction ms with
  | nil => intro _; rfl
  | cons x ms ih =>
    intro h
    rw [List.foldl_cons]
    have hx := h x (List.mem_cons_self x ms)
    have hstep : betterMount reqPath none x = none := by simp [betterMount, hx]
    rw [hstep]
    exact ih (fun m2 hm2 => h m2 (List.mem_cons_of_mem x hm2))

/-- The entry the fold ends with is the initial one or a member of the
list. -/
theorem matchMountAux_mem (reqPath : String) :
    ∀ (ms : List MountEntry) (best : Option MountEntry) (m : MountEntry),
    ms.foldl (betterMount reqPath) best = some m → best = some m ∨ m ∈ ms := by
  intro ms
  induction ms with
  | nil => intro best m h; exact Or.inl h
  | cons x ms ih =>
    intro best m h
    rw [List.foldl_cons] at h
    rcases ih (betterMount reqPath best x) m h with hstep | hmem
    · by_cases hm : urlPrefixOf x.url reqPath = true
      · rcases hbest : best with _ | b0
        · simp [betterMount, hm, hbest] at hstep
          exact Or.inr (by rw [← hstep]; exact List.mem_cons_self x ms)
        · by_cases hlen : b0.url.length < x.url.length
          · simp [betterMount, hm, hbest, hlen] at hstep
            exact Or.inr (by rw [← hstep]; exact List.mem_cons_self x ms)
          · simp [betterMount, hm, hbest, hlen] at hstep
            exact Or.inl (by rw [hstep])
      · simp [betterMount, hm] at hstep
        exact Or.inl hstep
    · exact Or.inr (List.mem_cons_of_mem x hmem)

/-- C8: the Mount Resolver selects a mount entry of the table whose URL is
a prefix of the request path and whose URL is longest among all matching
entries; when no entry's URL prefix matches, resolution is NotFound,
served as a 404. -/
theorem mount_longest_match (mounts : List MountEntry) (reqPath : String) :
    (∀ m, matchMount mounts reqPath = some m →
      m ∈ mounts ∧ urlPrefixOf m.url reqPath = true ∧
      ∀ m2, m2 ∈ mounts → urlPrefixOf m2.url reqPath = true →
        m2.url.length ≤ m.url.length) ∧
    ((∀ m2, m2 ∈ mounts → urlPrefixOf m2.url reqPath = false) →
      resolveMount mounts reqPath = .notFound ∧
      statusOf (resolveMount mounts reqPath) = 404) := by
  constructor
  · intro m hm
    simp only [matchMount] at hm
    refine ⟨?_, ?_, ?_⟩
    · rcases matchMountAux_mem reqPath mounts none m hm with h | h
      · cases h
      · exact h
    · exact matchMountAux_good reqPath mounts none (fun b hb => by cases hb) m hm
    · intro m2 hmem hpre
      obtain ⟨m3, hm3, hle⟩ := matchMountAux_max reqPath mounts none m2 hmem hpre
      rw [hm] at hm3
      injection hm3 with h
      rw [h]
      exact hle
  · intro hall
    have h0 : matchMount mounts reqPath = none := by
      simp only [matchMount]
      exact matchMountAux_none reqPath mounts hall
    exact ⟨by simp [resolveMount, h0], by simp [resolveMount, h0, statusOf]⟩

/-- Witness for C8: on a concrete mount table, "/src/deep/app.js" selects
the nested "/src/deep" mount (longer than the also-matching "/src"), and
"/assets/logo.png" is NotFound, served as 404. -/
theorem mount_longest_match_witness :
    (demoMountDeep ∈ demoMounts ∧
      urlPrefixOf demoMountDeep.url "/src/deep/app.js" = true ∧
      demoMountSrc.url.length ≤ demoMountDeep.url.length) ∧
    (resolveMount demoMounts "/assets/logo.png" = .notFound ∧
      statusOf (resolveMount demoMounts "/assets/logo.png") = 404) := by
  have h1 := (mount_longest_match demoMounts "/src/deep/app.js").1 demoMountDeep (by decide)
  have h2 := (mount_longest_match demoMounts "/assets/logo.png").2 (by decide)
  exact ⟨⟨h1.1, h1.2.1, h1.2.2 demoMountSrc (by decide) (by decide)⟩, h2⟩

/-! ## Resolution Graph lemmas and C4 -/

/-- A second plugin claiming the ".svelte" input extension. -/
def conflictPlugin : SnowpackPlugin := ⟨"svelte-clone", some ⟨[".svelte"], [".js"]⟩⟩

/-- Keys present before an insertion batch are still present after it. -/
theorem insertInputs_ok_keys_sub (pname : String) :
    ∀ (exts : List String) (acc acc2 : List (String × String)),
    insertInputs pname exts acc = .ok acc2 →
    ∀ k, k ∈ acc.map Prod.fst → k ∈ acc2.map Prod.fst := by
  intro exts
  induction exts with
  | nil =>
    intro acc acc2 h k hk
    simp [insertInputs] at h
    subst h; exact hk
  | cons e rest ih =>
    intro acc acc2 h k hk
    by_cases hc : (acc.map Prod.fst).contains e = true
    · simp only [insertInputs] at h
      rw [if_pos hc] at h
      simp at h
    · simp only [insertInputs, hc, if_false] at h
      exact ih _ _ h k (by simp [hk])

/-- Every extension of a successfully inserted batch ends up as a key. -/
theorem insertInputs_ok_mem (pname : String) :
    ∀ (exts : List String) (acc acc2 : List (String × String)),
    insertInputs pname exts acc = .ok acc2 →
    ∀ ext, ext ∈ exts → ext ∈ acc2.map Prod.fst := by
  intro exts
  induction exts with
  | nil => intro acc acc2 h ext hext; cases hext
  | cons e rest ih =>
    intro acc acc2 h ext hext
    by_cases hc : (acc.map Prod.fst).contains e = true
    · simp only [insertInputs] at h
      rw [if_pos hc] at h
      simp at h
    · simp only [insertInputs, hc, if_false] at h
      rcases List.mem_cons.mp hext with rfl | hmem
      · exact insertInputs_ok_keys_sub pname rest _ _ h ext (by simp)
      · exact ih _ _ h ext hmem

/-- Inserting a batch holding an already-assigned extension fails. -/
theorem insertInputs_mem_error (pname : String) :
    ∀ (exts : List String) (acc : List (String × String)) (ext : String),
    ext ∈ exts → ext ∈ acc.map Prod.fst →
    ∃ err, insertInputs pname exts acc = .error err := by
  intro exts
  induction exts with
  | nil => intro acc ext h _; cases h
  | cons e rest ih =>
    intro acc ext h1 h2
    by_cases hc : (acc.map Prod.fst).contains e = true
    · exact ⟨.duplicateLoader e, by simp only [insertInputs]; rw [if_pos hc]⟩
    · rcases List.mem_cons.mp h1 with rfl | hmem
      · exact absurd h2 (by simpa using hc)
      · obtain ⟨err, herr⟩ := ih ((e, pname) :: acc) ext hmem (by simp [h2])
        exact ⟨err, by simp only [insertInputs, hc, if_false]; exact herr⟩

/-- Keys present before registering further plugins are still present after
a successful registration run. -/
theorem loaderMapAux_ok_keys_sub :
    ∀ (ps : List SnowpackPlugin) (acc m : List (String × String)),
    loaderMapAux ps acc = .ok m →
    ∀ k, k ∈ acc.map Prod.fst → k ∈ m.map Prod.fst := by
  intro ps
  induction ps with
  | nil =>
    intro acc m h k hk
    simp [loaderMapAux] at h
    subst h; exact hk
  | cons p rest ih =>
    intro acc m h k hk
    rcases hr : p.resolve with _ | r
    · simp only [loaderMapAux, hr] at h
      exact ih _ _ h k hk
    · rcases hI : insertInputs p.name r.input acc with err | acc2
      · simp [loaderMapAux, hr, hI] at h
      · simp only [loaderMapAux, hr, hI] at h
        exact ih _ _ h k (insertInputs_ok_keys_sub p.name r.input _ _ hI k hk)

/-- Registering plugins over a table that already assigns an extension some
plugin later declares again fails. -/
theorem loaderMapAux_error_of_mem :
    ∀ (ps : List SnowpackPlugin) (acc : List (String × String)) (ext : String),
    ext ∈ acc.map Prod.fst →
    (∃ p, p ∈ ps ∧ declaresInput p ext = true) →
    ∃ err, loaderMapAux ps acc = .error err := by
  intro ps
  induction ps with
  | nil =>
    intro acc ext _ hex
    obtain ⟨p, hp, _⟩ := hex
    cases hp
  | cons q rest ih =>
    intro acc ext hk hex
    obtain ⟨p, hp, hd⟩ := hex
    rcases List.mem_cons.mp hp with rfl | hmem
    · rcases hr : p.resolve with _ | r
      · simp [declaresInput, hr] at hd
      · have hin : ext ∈ r.input := by
          simp [declaresInput, hr] at hd
          exact hd
        obtain ⟨err, herr⟩ := insertInputs_mem_error p.name r.input acc ext hin hk
        exact ⟨err, by simp only [loaderMapAux, hr, herr]⟩
    · rcases hr : q.resolve with _ | r
      · obtain ⟨err, herr⟩ := ih acc ext hk ⟨p, hmem, hd⟩
        exact ⟨err, by simp only [loaderMapAux, hr]; exact herr⟩
      · rcases hI : insertInputs q.name r.input acc with err | acc2
        · exact ⟨err, by simp only [loaderMapAux, hr, hI]⟩
        · obtain ⟨err, herr⟩ := ih acc2 ext
            (insertInputs_ok_keys_sub q.name r.input _ _ hI ext hk) ⟨p, hmem, hd⟩
          exact ⟨err, by simp only [loaderMapAux, hr, hI]; exact herr⟩

/-- Two registered plugins declaring the same input extension make
registration fail, whatever table it starts from. -/
theorem loaderMapAux_error_of_two :
    ∀ (ps : List SnowpackPlugin) (acc : List (String × String)) (ext : String),
    2 ≤ ps.countP (fun p => declaresInput p ext) →
    ∃ err, loaderMapAux ps acc = .error err := by
  intro ps
  induction ps with
  | nil => intro acc ext h; simp at h
  | cons p rest ih =>
    intro acc ext h2
    rw [List.countP_cons] at h2
    by_cases hd : declaresInput p ext = true
    · rcases hr : p.resolve with _ | r
      · simp [declaresInput, hr] at hd
      · have hin : ext ∈ r.input := by
          simp [declaresInput, hr] at hd
          exact hd
        rcases hI : insertInputs p.name r.input acc with err | acc2
        · exact ⟨err, by simp only [loaderMapAux, hr, hI]⟩
        · have hk : ext ∈ acc2.map Prod.fst :=
            insertInputs_ok_mem p.name r.input acc acc2 hI ext hin
          have hex : ∃ q ∈ rest, declaresInput q ext = true := by
            simp [hd] at h2
            exact h2
          obtain ⟨q, hq, hdq⟩ := hex
          obtain ⟨err, herr⟩ := loaderMapAux_error_of_mem rest acc2 ext hk ⟨q, hq, hdq⟩
          exact ⟨err, by simp only [loaderMapAux, hr, hI]; exact herr⟩
    · have hrest : 2 ≤ rest.countP (fun p => declaresInput p ext) := by
        simp [hd] at h2
        omega
      rcases hr : p.resolve with _ | r
      · obtain ⟨err, herr⟩ := ih acc ext hrest
        exact ⟨err, by simp only [loaderMapAux, hr]; exact herr⟩
      · rcases hI : insertInputs p.name r.input acc with err | acc2
        · exact ⟨err, by simp only [loaderMapAux, hr, hI]⟩
        · obtain ⟨err, herr⟩ := ih acc2 ext hrest
          exact ⟨err, by simp only [loaderMapAux, hr, hI]; exact herr⟩

/-- A successful insertion batch keeps the key list duplicate-free. -/
theorem insertInputs_ok_nodup (pname : String) :
    ∀ (exts : List String) (acc acc2 : List (String × String)),
    (acc.map Prod.fst).Nodup → insertInputs pname exts acc = .ok acc2 →
    (acc2.map Prod.fst).Nodup := by
  intro exts
  induction exts with
  | nil =>
    intro acc acc2 hnd h
    simp [insertInputs] at h
    subst h; exact hnd
  | cons e rest ih =>
    intro acc acc2 hnd h
    by_cases hc : (acc.map Prod.fst).contains e = true
    · simp only [insertInputs] at h
      rw [if_pos hc] at h
      simp at h
    · simp only [insertInputs, hc, if_false] at h
      refine ih _ _ ?_ h
      simp only [List.map_cons]
      exact List.nodup_cons.mpr ⟨by simpa using hc, hnd⟩

/-- A successful registration run keeps the key list duplicate-free. -/
theorem loaderMapAux_ok_nodup :
    ∀ (ps : List SnowpackPlugin) (acc m : List (String × String)),
    (acc.map Prod.fst).Nodup → loaderMapAux ps acc = .ok m →
    (m.map Prod.fst).Nodup := by
  intro ps
  induction ps with
  | nil =>
    intro acc m hnd h
    simp [loaderMapAux] at h
    subst h; exact hnd
  | cons p rest ih =>
    intro acc m hnd h
    rcases hr : p.resolve with _ | r
    · simp only [loaderMapAux, hr] at h
      exact ih _ _ hnd h
    · rcases hI : insertInputs p.name r.input acc with err | acc2
      · simp [loaderMapAux, hr, hI] at h
      · simp only [loaderMapAux, hr, hI] at h
        exact ih _ _ (insertInputs_ok_nodup p.name r.input _ _ hnd hI) h

/-- A duplicate-free key list bounds every key's assignment count by one. -/
theorem loaderCount_le_one (m : List (String × String))
    (hnd : (m.map Prod.fst).Nodup) (ext : String) : loaderCount m ext ≤ 1 := by
  have h1 : loaderCount m ext = (m.map Prod.fst).count ext := by
    simp [loaderCount, List.count, List.countP_map, ← List.countP_eq_length_filter]
    rfl
  rw [h1]
  exact List.nodup_iff_count_le_one.mp hnd ext

/-- C4: a successfully built Resolution Graph assigns at most one loader
plugin per input extension, and registering two plugins whose
`resolve.input` lists overlap on the same extension fails at startup, when
the graph is built, with a configuration error. -/
theorem loader_assignment_unique (ps : List SnowpackPlugin) :
    (∀ m, buildLoaderMap ps = .ok m → ∀ ext, loaderCount m ext ≤ 1) ∧
    (∀ ext, 2 ≤ ps.countP (fun p => declaresInput p ext) →
      ∃ err, buildLoaderMap ps = .error err) := by
  constructor
  · intro m hm ext
    exact loaderCount_le_one m (loaderMapAux_ok_nodup ps [] m (by simp) hm) ext
  · intro ext h2
    exact loaderMapAux_error_of_two ps [] ext h2

/-- Witness for C4: one loader plugin registers cleanly with a unique
assignment; two plugins both claiming ".svelte" fail at startup. -/
theorem loader_assignment_unique_witness :
    loaderCount [(".svelte", "svelte-plugin")] ".svelte" ≤ 1 ∧
    ∃ err, buildLoaderMap [sveltePlugin, conflictPlugin] = .error err :=
  ⟨(loader_assignment_unique [sveltePlugin]).1 [(".svelte", "svelte-plugin")] rfl ".svelte",
   (loader_assignment_unique [sveltePlugin, conflictPlugin]).2 ".svelte" (by decide)⟩

end Snowpack
